import Mathlib

/-!
Shallow embedding of load_libpyopenocd.py: the ScanField byte-packing data
model and the PyOpenOCD wrapper methods (initialize, get_jtag_tap,
add_drscan, execute_queue, close).  Python integers are modelled as Int
(Nat for unsigned values), Python byte strings as List Nat with every
element below 256, and Python exceptions as explicit error values.
-/

/-- Errors the Python layer can raise: OpenOCDError carrying an integer
status code, OpenOCDError carrying a message string, OverflowError from
int.to_bytes, ValueError from bytes(n) with negative n, and
UnicodeEncodeError from str.encode("ascii") on non-ASCII input. -/
inductive PyError where
  | openOCDError (code : Int) : PyError
  | openOCDErrorMsg (msg : String) : PyError
  | overflowError : PyError
  | valueError : PyError
  | unicodeEncodeError : PyError
  deriving Repr, DecidableEq

/-- Source div_round_up: (val + (div - 1)) // div with Python floor
division, which is Int.fdiv. -/
def div_round_up (val div : Int) : Int :=
  (val + (div - 1)).fdiv div

/-- Little-endian digit expansion: the first len base-256 digits of v,
least significant first.  Helper for toBytesLE. -/
def toBytesAux : Nat → Nat → List Nat
  | 0, _ => []
  | n + 1, v => v % 256 :: toBytesAux n (v / 256)

/-- Python v.to_bytes(len, byteorder="little") for an unsigned v: the
len-byte little-endian encoding, or none (OverflowError) when v does not
fit in len bytes. -/
def toBytesLE (len v : Nat) : Option (List Nat) :=
  if v < 256 ^ len then some (toBytesAux len v) else none

/-- Python int.from_bytes(buf, byteorder="little"). -/
def fromBytesLE : List Nat → Nat
  | [] => 0
  | b :: rest => b + 256 * fromBytesLE rest

/-- The ScanField object state: _bitlen, _bytelen, _in_buf, _out_buf. -/
structure ScanField where
  bitlen : Int
  bytelen : Nat
  in_buf : List Nat
  out_buf : List Nat
  deriving Repr, DecidableEq

/-- The out_value setter: self._out_buf = v.to_bytes(self._bytelen,
byteorder="little"); none models the OverflowError escaping. -/
def ScanField.setOutValue (f : ScanField) (v : Nat) : Option ScanField :=
  match toBytesLE f.bytelen v with
  | none => none
  | some buf => some { f with out_buf := buf }

/-- The out_value getter: int.from_bytes(self._out_buf, "little"). -/
def ScanField.get_out_value (f : ScanField) : Nat :=
  fromBytesLE f.out_buf

/-- The in_value getter: int.from_bytes(self._in_buf, "little"). -/
def ScanField.get_in_value (f : ScanField) : Nat :=
  fromBytesLE f.in_buf

/-- The ScanField state right after the buffer allocations of __init__,
before the optional initial setter call: _bytelen = div_round_up(bitlen,
8) and both buffers zero-filled to that length. -/
def ScanField.fresh (bitlen : Int) : ScanField :=
  { bitlen := bitlen, bytelen := (div_round_up bitlen 8).toNat,
    in_buf := List.replicate (div_round_up bitlen 8).toNat 0,
    out_buf := List.replicate (div_round_up bitlen 8).toNat 0 }

/-- ScanField.__init__(bitlen, out_value): computes _bytelen =
div_round_up(bitlen, 8), allocates zeroed buffers of that many bytes
(none models the ValueError from bytes(n) with n negative), then runs the
out_value setter when an initial value is given. -/
def mkScanField (bitlen : Int) (out_value : Option Nat) : Option ScanField :=
  if div_round_up bitlen 8 < 0 then
    none
  else
    match out_value with
    | none => some (ScanField.fresh bitlen)
    | some v => (ScanField.fresh bitlen).setOutValue v

/-- Python s.encode("ascii"): the byte list of the code points when all
characters are ASCII, none (UnicodeEncodeError) otherwise. -/
def encodeAscii (s : String) : Option (List Nat) :=
  if s.data.all (fun c => c.toNat < 128) then some (s.data.map Char.toNat)
  else none

/-- The bytes of an ASCII string literal (used for the b"script " and
b"\x00" constants of the source). -/
def asciiBytes (s : String) : List Nat :=
  s.data.map Char.toNat

/-- The ctypes CScanField structure: num_bits, out_value, in_value,
check_value, check_mask.  Buffers are byte lists; the two check pointers
are optional (the wrapper always passes None for them). -/
structure CScanField where
  num_bits : Int
  c_out_value : List Nat
  c_in_value : List Nat
  check_value : Option (List Nat)
  check_mask : Option (List Nat)
  deriving Repr, DecidableEq

/-- ScanField.ctype: builds the CScanField descriptor with num_bits =
_bitlen, out_value = _out_buf, in_value = _in_buf and null check
pointers. -/
def ScanField.ctype (f : ScanField) : CScanField :=
  { num_bits := f.bitlen, c_out_value := f.out_buf, c_in_value := f.in_buf,
    check_value := none, check_mask := none }

/-- Calls the wrapper forwards to the loaded library, as the claims need
them: openocd_deinit(ctx) and jtag_add_dr_scan(tap, count, fields,
end_state). -/
inductive LibCall where
  | openocdDeinit (ctx : Nat) : LibCall
  | jtagAddDrScan (tap : Nat) (count : Int) (fields : List CScanField)
      (end_state : Int) : LibCall
  deriving Repr, DecidableEq

/-- PyOpenOCD.initialize builds script_argv = [b"script " + str(p)
.encode("ascii") + b"\x00" for p in scripts]; none models an encoding
error escaping the comprehension. -/
def scriptArgv : List String → Option (List (List Nat))
  | [] => some []
  | p :: ps =>
    match encodeAscii p, scriptArgv ps with
    | some pb, some rest => some ((asciiBytes "script " ++ pb ++ [0]) :: rest)
    | _, _ => none

/-- PyOpenOCD.initialize: builds the argv of "script <path>" commands,
calls openocd_init(ctx, len(argv), argv) and raises OpenOCDError(r) when
the returned status r is non-zero.  The backend is the function argument
openocd_init. -/
def PyOpenOCD.initScripts (openocd_init : Nat → Nat → List (List Nat) → Int)
    (ctx : Nat) (scripts : List String) : Except PyError Unit :=
  match scriptArgv scripts with
  | none => Except.error PyError.unicodeEncodeError
  | some argv =>
    let r := openocd_init ctx argv.length argv
    if r ≠ 0 then Except.error (PyError.openOCDError r) else Except.ok ()

/-- PyOpenOCD.get_jtag_tap: encodes the name as ASCII, calls
jtag_tap_by_string and raises OpenOCDError("TAP <name> could not be
found") when the returned pointer is NULL (modelled as 0); otherwise the
pointer is returned unchanged. -/
def PyOpenOCD.get_jtag_tap (jtag_tap_by_string : List Nat → Nat)
    (name : String) : Except PyError Nat :=
  match encodeAscii name with
  | none => Except.error PyError.unicodeEncodeError
  | some name_bin =>
    let tap := jtag_tap_by_string name_bin
    if tap = 0 then
      Except.error (PyError.openOCDErrorMsg
        ("TAP " ++ name ++ " could not be found"))
    else Except.ok tap

/-- PyOpenOCD.add_drscan: converts each field with ScanField.ctype, packs
them in an array and calls jtag_add_dr_scan(tap, len(field_arr),
field_arr, end_state).  Total: no input raises. -/
def PyOpenOCD.add_drscan (tap : Nat) (fields : List ScanField)
    (end_state : Int) : LibCall :=
  let ct_fields := fields.map ScanField.ctype
  LibCall.jtagAddDrScan tap (ct_fields.length : Int) ct_fields end_state

/-- PyOpenOCD.execute_queue: r = jtag_execute_queue(); raises
OpenOCDError(r) when r != 0, returns None otherwise.  The backend status
is the argument r. -/
def PyOpenOCD.execute_queue (r : Int) : Except PyError Unit :=
  if r ≠ 0 then Except.error (PyError.openOCDError r) else Except.ok ()

/-- PyOpenOCD.close: unconditionally calls openocd_deinit(self._ctx);
there is no state recording whether close already ran.  Returns the
outcome together with the backend calls made. -/
def PyOpenOCD.close (ctx : Nat) : Except PyError Unit × List LibCall :=
  (Except.ok (), [LibCall.openocdDeinit ctx])

/-- Running close twice in sequence on the same context, accumulating the
backend calls; the second call is skipped when the first raises. -/
def PyOpenOCD.closeTwice (ctx : Nat) : Except PyError Unit × List LibCall :=
  match PyOpenOCD.close ctx with
  | (Except.error e, c1) => (Except.error e, c1)
  | (Except.ok _, c1) =>
    match PyOpenOCD.close ctx with
    | (r2, c2) => (r2, c1 ++ c2)

/-- Applying a sequence of out_value setter calls to a field, stopping at
the first OverflowError. -/
def applyUpdates : ScanField → List Nat → Option ScanField
  | f, [] => some f
  | f, v :: vs =>
    match f.setOutValue v with
    | none => none
    | some f2 => applyUpdates f2 vs

section ByteLemmas

theorem toBytesAux_length (n v : Nat) : (toBytesAux n v).length = n := by
  induction n generalizing v with
  | zero => rfl
  | succ n ih => simp [toBytesAux, ih]

theorem toBytesAux_lt (n v : Nat) : ∀ b ∈ toBytesAux n v, b < 256 := by
  induction n generalizing v with
  | zero => simp [toBytesAux]
  | succ n ih =>
    simp only [toBytesAux, List.mem_cons]
    rintro b (rfl | hb)
    . exact Nat.mod_lt _ (by omega)
    . exact ih _ _ hb

theorem fromBytesLE_toBytesAux (n v : Nat) :
    fromBytesLE (toBytesAux n v) = v % 256 ^ n := by
  induction n generalizing v with
  | zero => simp [toBytesAux, fromBytesLE, Nat.mod_one]
  | succ n ih =>
    have key : v % 256 ^ (n + 1) = v % 256 + 256 * (v / 256 % 256 ^ n) := by
      have h1 : v = 256 * (v / 256) + v % 256 := (Nat.div_add_mod v 256).symm
      have h2 : v / 256 = 256 ^ n * (v / 256 / 256 ^ n) + v / 256 % 256 ^ n :=
        (Nat.div_add_mod _ _).symm
      have hlt : v % 256 + 256 * (v / 256 % 256 ^ n) < 256 ^ (n + 1) := by
        have hm : v % 256 < 256 := Nat.mod_lt _ (by omega)
        have hq : v / 256 % 256 ^ n < 256 ^ n :=
          Nat.mod_lt _ (Nat.pos_pow_of_pos n (by omega))
        calc v % 256 + 256 * (v / 256 % 256 ^ n)
            ≤ 255 + 256 * (v / 256 % 256 ^ n) := by omega
          _ < 256 * (v / 256 % 256 ^ n + 1) := by omega
          _ ≤ 256 * 256 ^ n := by
              have : v / 256 % 256 ^ n + 1 ≤ 256 ^ n := hq
              exact Nat.mul_le_mul_left _ this
          _ = 256 ^ (n + 1) := by ring
      calc v % 256 ^ (n + 1)
          = (256 ^ (n + 1) * (v / 256 / 256 ^ n)
              + (v % 256 + 256 * (v / 256 % 256 ^ n))) % 256 ^ (n + 1) := by
            congr 1
            nth_rewrite 1 [h1]
            nth_rewrite 1 [h2]
            ring
        _ = (v % 256 + 256 * (v / 256 % 256 ^ n)) % 256 ^ (n + 1) :=
            Nat.mul_add_mod _ _ _
        _ = v % 256 + 256 * (v / 256 % 256 ^ n) := Nat.mod_eq_of_lt hlt
    simp only [toBytesAux, fromBytesLE, ih, key]

theorem fromBytesLE_toBytesAux_of_lt {n v : Nat} (h : v < 256 ^ n) :
    fromBytesLE (toBytesAux n v) = v := by
  rw [fromBytesLE_toBytesAux, Nat.mod_eq_of_lt h]

theorem fromBytesLE_replicate_zero (n : Nat) :
    fromBytesLE (List.replicate n 0) = 0 := by
  induction n with
  | zero => rfl
  | succ n ih => simp [List.replicate, fromBytesLE, ih]

end ByteLemmas

section DivRoundUpLemmas

theorem div_round_up_eight (b : Int) : div_round_up b 8 = (b + 7) / 8 := by
  unfold div_round_up
  rw [Int.fdiv_eq_ediv _ (by omega)]
  norm_num

end DivRoundUpLemmas

section ScanFieldLemmas

theorem mkScanField_none_eq (b : Int) (hb : 0 ≤ div_round_up b 8) :
    mkScanField b none = some (ScanField.fresh b) := by
  rw [mkScanField.eq_def, if_neg (by omega)]

theorem mkScanField_neg (b : Int) (ov : Option Nat)
    (hb : div_round_up b 8 < 0) : mkScanField b ov = none := by
  rw [mkScanField.eq_def, if_pos hb]

/-- Well-formed buffers: both buffers have exactly bytelen entries, each a
byte. -/
def bufWF (f : ScanField) : Prop :=
  f.in_buf.length = f.bytelen ∧ f.out_buf.length = f.bytelen ∧
  (∀ x ∈ f.in_buf, x < 256) ∧ (∀ x ∈ f.out_buf, x < 256)

theorem bufWF_fresh (b : Int) : bufWF (ScanField.fresh b) := by
  refine ⟨?_, ?_, ?_, ?_⟩ <;> simp [ScanField.fresh]

theorem setOutValue_some {f f2 : ScanField} {v : Nat}
    (h : f.setOutValue v = some f2) :
    v < 256 ^ f.bytelen ∧ f2 = { f with out_buf := toBytesAux f.bytelen v } := by
  unfold ScanField.setOutValue toBytesLE at h
  by_cases hv : v < 256 ^ f.bytelen
  · simp only [if_pos hv, Option.some.injEq] at h
    exact ⟨hv, h.symm⟩
  · simp only [if_neg hv] at h
    exact absurd h (by simp)

theorem setOutValue_wf {f f2 : ScanField} {v : Nat} (hf : bufWF f)
    (h : f.setOutValue v = some f2) :
    bufWF f2 ∧ f2.in_buf = f.in_buf ∧ f2.bytelen = f.bytelen ∧
      f2.bitlen = f.bitlen := by
  obtain ⟨-, rfl⟩ := setOutValue_some h
  obtain ⟨h1, -, h3, -⟩ := hf
  exact ⟨⟨h1, toBytesAux_length _ _, h3, toBytesAux_lt _ _⟩, rfl, rfl, rfl⟩

theorem mkScanField_wf {b : Int} {ov : Option Nat} {f0 : ScanField}
    (h0 : mkScanField b ov = some f0) :
    bufWF f0 ∧ f0.in_buf = List.replicate f0.bytelen 0 ∧ f0.bitlen = b := by
  unfold mkScanField at h0
  split at h0
  next => simp at h0
  next =>
    match ov, h0 with
    | none, h0 =>
      simp only [Option.some.injEq] at h0
      subst h0
      exact ⟨bufWF_fresh b, by simp [ScanField.fresh], rfl⟩
    | some v, h0 =>
      obtain ⟨hwf, hin, hlen, hbit⟩ := setOutValue_wf (bufWF_fresh b) h0
      refine ⟨hwf, ?_, by simp [hbit, ScanField.fresh]⟩
      rw [hin, hlen]
      simp [ScanField.fresh]

theorem applyUpdates_wf {vs : List Nat} {f0 f : ScanField} (hf : bufWF f0)
    (h : applyUpdates f0 vs = some f) :
    bufWF f ∧ f.in_buf = f0.in_buf ∧ f.bytelen = f0.bytelen ∧
      f.bitlen = f0.bitlen := by
  induction vs generalizing f0 with
  | nil =>
    simp only [applyUpdates, Option.some.injEq] at h
    subst h
    exact ⟨hf, rfl, rfl, rfl⟩
  | cons v vs ih =>
    simp only [applyUpdates] at h
    split at h
    next => simp at h
    next f2 hset =>
      obtain ⟨hwf2, hin2, hlen2, hbit2⟩ := setOutValue_wf hf hset
      obtain ⟨hwf, hin, hlen, hbit⟩ := ih hwf2 h
      exact ⟨hwf, by rw [hin, hin2], by rw [hlen, hlen2],
        by rw [hbit, hbit2]⟩

end ScanFieldLemmas

section Claims

/-- C1: for every ScanField created with bit_length > 0 and every integer
v in the interval from 0 up to (but excluding) 2 to the bit_length,
setting the out-value to v and then reading the out-value returns exactly
v: a lossless little-endian round trip through the byte buffer. -/
theorem scanField_out_roundtrip (b : Int) (hb : 0 < b) (v : Nat)
    (hv : v < 2 ^ b.toNat) :
    ∃ f f2, mkScanField b none = some f ∧ f.setOutValue v = some f2 ∧
      f2.get_out_value = v := by
  have h8 := div_round_up_eight b
  have hnn : 0 ≤ div_round_up b 8 := by omega
  have hbits : b.toNat ≤ 8 * (div_round_up b 8).toNat := by omega
  have hv2 : v < 256 ^ (ScanField.fresh b).bytelen := by
    have : (ScanField.fresh b).bytelen = (div_round_up b 8).toNat := rfl
    rw [this]
    calc v < 2 ^ b.toNat := hv
      _ ≤ 2 ^ (8 * (div_round_up b 8).toNat) :=
          Nat.pow_le_pow_right (by omega) hbits
      _ = 256 ^ (div_round_up b 8).toNat := by rw [pow_mul]; norm_num
  refine ⟨ScanField.fresh b,
    { ScanField.fresh b with
        out_buf := toBytesAux (ScanField.fresh b).bytelen v },
    mkScanField_none_eq b hnn, ?_, ?_⟩
  · unfold ScanField.setOutValue toBytesLE
    rw [if_pos hv2]
  · exact fromBytesLE_toBytesAux_of_lt hv2

theorem scanField_out_roundtrip_witness :
    (0 : Int) < 4 ∧ 11 < 2 ^ (4 : Int).toNat ∧
    (∃ f f2, mkScanField 4 none = some f ∧ f.setOutValue 11 = some f2 ∧
      f2.get_out_value = 11) :=
  ⟨by decide, by decide, scanField_out_roundtrip 4 (by decide) 11 (by decide)⟩

/-- C2 counterexample: with bit_length 4, the value 256 requires more
bits than the field's bit_length, yet setting the out-value raises
(OverflowError from int.to_bytes, modelled as none) instead of silently
truncating the high bits. -/
theorem setOutValue_overwide_raises :
    ∃ f, mkScanField 4 none = some f ∧ 2 ^ (4 : Int).toNat ≤ 256 ∧
      f.setOutValue 256 = none := by
  refine ⟨ScanField.fresh 4, by decide, by decide, by decide⟩

/-- C2 amended: the out-value setter packs exactly byte_length bytes.  A
value v that fits in byte_length bytes is stored unchanged — even when it
needs more bits than bit_length, no bit-level truncation happens — and a
value v of more than byte_length bytes raises OverflowError (none)
instead of being truncated. -/
theorem setOutValue_packs_bytes (f : ScanField) (v : Nat) :
    (v < 256 ^ f.bytelen →
      ∃ f2, f.setOutValue v = some f2 ∧ f2.get_out_value = v) ∧
    (256 ^ f.bytelen ≤ v → f.setOutValue v = none) := by
  constructor
  · intro hv
    refine ⟨{ f with out_buf := toBytesAux f.bytelen v }, ?_, ?_⟩
    · unfold ScanField.setOutValue toBytesLE
      rw [if_pos hv]
    · exact fromBytesLE_toBytesAux_of_lt hv
  · intro hv
    unfold ScanField.setOutValue toBytesLE
    rw [if_neg (by omega)]

theorem setOutValue_packs_bytes_witness :
    (31 < 256 ^ (ScanField.fresh 4).bytelen ∧
      ∃ f2, (ScanField.fresh 4).setOutValue 31 = some f2 ∧
        f2.get_out_value = 31) ∧
    (256 ^ (ScanField.fresh 4).bytelen ≤ 256 ∧
      (ScanField.fresh 4).setOutValue 256 = none) :=
  ⟨⟨by decide, (setOutValue_packs_bytes (ScanField.fresh 4) 31).1 (by decide)⟩,
    by decide, (setOutValue_packs_bytes (ScanField.fresh 4) 256).2 (by decide)⟩

/-- C3 counterexample: creating a ScanField with bit_length 0 succeeds
(no exception of any kind), so creation does not fail for every
non-positive bit_length. -/
theorem mkScanField_zero_succeeds :
    mkScanField 0 none =
      some { bitlen := 0, bytelen := 0, in_buf := [], out_buf := [] } := by
  decide

/-- C3 amended: __init__ never validates bitlen.  Creation with a
positive bit_length succeeds; creation with bit_length in (-8, 0] also
succeeds (no InvalidArgument), producing a degenerate field of
byte_length 0; only bit_length at most -8 fails, and then with a
ValueError from a negative buffer size, not an argument check. -/
theorem mkScanField_no_validation (b : Int) :
    (0 < b → (mkScanField b none).isSome = true) ∧
    (-8 < b → b ≤ 0 →
      mkScanField b none =
        some { bitlen := b, bytelen := 0, in_buf := [], out_buf := [] }) ∧
    (b ≤ -8 → mkScanField b none = none) := by
  have h8 := div_round_up_eight b
  refine ⟨fun hb => ?_, fun hb1 hb2 => ?_, fun hb => ?_⟩
  · rw [mkScanField_none_eq b (by omega)]
    rfl
  · have hz : div_round_up b 8 = 0 := by omega
    rw [mkScanField_none_eq b (by omega)]
    unfold ScanField.fresh
    rw [hz]
    rfl
  · exact mkScanField_neg b none (by omega)

theorem mkScanField_no_validation_witness :
    ((0 : Int) < 5 ∧ (mkScanField 5 none).isSome = true) ∧
    ((-8 : Int) < -1 ∧ (-1 : Int) ≤ 0 ∧
      mkScanField (-1) none =
        some { bitlen := -1, bytelen := 0, in_buf := [], out_buf := [] }) ∧
    ((-9 : Int) ≤ -8 ∧ mkScanField (-9) none = none) :=
  ⟨⟨by decide, (mkScanField_no_validation 5).1 (by decide)⟩,
    ⟨by decide, by decide,
      (mkScanField_no_validation (-1)).2.1 (by decide) (by decide)⟩,
    by decide, (mkScanField_no_validation (-9)).2.2 (by decide)⟩

/-- C7: for every positive bit_length the created field's byte_length is
the ceiling of bit_length over 8. -/
theorem byteLength_is_ceil (b : Int) (hb : 0 < b) :
    ∃ f, mkScanField b none = some f ∧
      (f.bytelen : Int) = ⌈(b : ℚ) / 8⌉ := by
  have h8 := div_round_up_eight b
  have hnn : 0 ≤ div_round_up b 8 := by omega
  refine ⟨ScanField.fresh b, mkScanField_none_eq b hnn, ?_⟩
  have hfb : ((ScanField.fresh b).bytelen : Int) = (b + 7) / 8 := by
    show (((div_round_up b 8).toNat : Nat) : Int) = (b + 7) / 8
    omega
  rw [hfb]
  symm
  rw [Int.ceil_eq_iff]
  constructor
  · rw [lt_div_iff₀ (by norm_num : (0 : ℚ) < 8)]
    have h1 : (b + 7) / 8 * 8 - 8 < b := by omega
    have hc : ((((b + 7) / 8 : Int) : ℚ) - 1) * 8
        = (((b + 7) / 8 * 8 - 8 : Int) : ℚ) := by push_cast; ring
    rw [hc]
    exact_mod_cast h1
  · rw [div_le_iff₀ (by norm_num : (0 : ℚ) < 8)]
    have h2 : b ≤ (b + 7) / 8 * 8 := by omega
    have hc : (((b + 7) / 8 : Int) : ℚ) * 8
        = (((b + 7) / 8 * 8 : Int) : ℚ) := by push_cast; ring
    rw [hc]
    exact_mod_cast h2

theorem byteLength_is_ceil_witness :
    ((0 : Int) < 4 ∧ ∃ f, mkScanField 4 none = some f ∧
      (f.bytelen : Int) = ⌈((4 : Int) : ℚ) / 8⌉) ∧
    ((0 : Int) < 32 ∧ ∃ f, mkScanField 32 none = some f ∧
      (f.bytelen : Int) = ⌈((32 : Int) : ℚ) / 8⌉) :=
  ⟨⟨by decide, byteLength_is_ceil 4 (by decide)⟩,
    by decide, byteLength_is_ceil 32 (by decide)⟩

theorem scriptArgv_spec (scripts : List String) (argv : List (List Nat))
    (h : scriptArgv scripts = some argv) :
    argv.length = scripts.length ∧
    ∀ i (hi : i < scripts.length) (hi2 : i < argv.length),
      ∃ pb, encodeAscii (scripts.get ⟨i, hi⟩) = some pb ∧
        argv.get ⟨i, hi2⟩ = asciiBytes "script " ++ pb ++ [0] := by
  induction scripts generalizing argv with
  | nil =>
    simp only [scriptArgv, Option.some.injEq] at h
    subst h
    exact ⟨rfl, fun i hi hi2 => absurd hi (by simp)⟩
  | cons p ps ih =>
    simp only [scriptArgv] at h
    cases hp : encodeAscii p with
    | none => rw [hp] at h; simp at h
    | some pb =>
      cases hps : scriptArgv ps with
      | none => rw [hp, hps] at h; simp at h
      | some rest =>
        rw [hp, hps] at h
        simp only [Option.some.injEq] at h
        subst h
        obtain ⟨hlen, hidx⟩ := ih rest hps
        refine ⟨by simp [hlen], ?_⟩
        intro i hi hi2
        match i with
        | 0 => exact ⟨pb, hp, rfl⟩
        | Nat.succ j =>
          exact hidx j (by simpa using hi) (by simpa using hi2)

/-- C4: execute_queue raises OpenOCDError carrying the adapter status
code exactly when jtag_execute_queue returns a non-zero status, and
returns normally when the status is zero. -/
theorem execute_queue_status (r : Int) :
    PyOpenOCD.execute_queue r =
      (if r = 0 then Except.ok ()
       else Except.error (PyError.openOCDError r)) := by
  by_cases h : r = 0 <;> simp [PyOpenOCD.execute_queue, h]

/-- C5 counterexample: calling close twice on context 7 returns normally
on the second call (no InvalidState, which the layer cannot even raise)
and forwards a second openocd_deinit to the underlying backend. -/
theorem closeTwice_ok :
    (PyOpenOCD.closeTwice 7).1 = Except.ok () ∧
    (PyOpenOCD.closeTwice 7).2 =
      [LibCall.openocdDeinit 7, LibCall.openocdDeinit 7] :=
  ⟨rfl, rfl⟩

/-- C5 amended: close performs no teardown tracking at all; every call,
including a second one on the same context, returns normally and forwards
one openocd_deinit(ctx) to the underlying backend. -/
theorem close_no_teardown_tracking (ctx : Nat) :
    PyOpenOCD.close ctx = (Except.ok (), [LibCall.openocdDeinit ctx]) ∧
    PyOpenOCD.closeTwice ctx =
      (Except.ok (),
        [LibCall.openocdDeinit ctx, LibCall.openocdDeinit ctx]) :=
  ⟨rfl, rfl⟩

/-- C6: when the backend lookup jtag_tap_by_string returns NULL
(modelled as 0), get_jtag_tap fails with the TAP-not-found OpenOCDError
and returns no handle; when the lookup returns a non-NULL handle,
get_jtag_tap returns that handle unchanged. -/
theorem tap_lookup_behavior (lookup : List Nat → Nat) (name : String)
    (name_bin : List Nat) (henc : encodeAscii name = some name_bin) :
    (lookup name_bin = 0 → PyOpenOCD.get_jtag_tap lookup name =
      Except.error (PyError.openOCDErrorMsg
        ("TAP " ++ name ++ " could not be found"))) ∧
    (lookup name_bin ≠ 0 →
      PyOpenOCD.get_jtag_tap lookup name = Except.ok (lookup name_bin)) := by
  unfold PyOpenOCD.get_jtag_tap
  rw [henc]
  constructor
  · intro h0
    simp [h0]
  · intro h0
    simp [h0]

theorem tap_lookup_behavior_witness :
    encodeAscii "a" = some [97] ∧
    PyOpenOCD.get_jtag_tap (fun _ => 0) "a" =
      Except.error (PyError.openOCDErrorMsg
        ("TAP " ++ "a" ++ " could not be found")) ∧
    PyOpenOCD.get_jtag_tap (fun _ => 5) "a" = Except.ok 5 := by
  refine ⟨by decide,
    (tap_lookup_behavior (fun _ => 0) "a" [97] (by decide)).1 rfl, ?_⟩
  exact (tap_lookup_behavior (fun _ => 5) "a" [97] (by decide)).2 (by decide)

/-- C8: initScripts builds an argv with exactly one "script <path>"
command per script path, in the given order (each entry the bytes of
"script " followed by the path and a NUL terminator), passes it to
openocd_init, fails with OpenOCDError carrying the status code exactly
when the bootstrap returns non-zero, and returns normally on zero. -/
theorem initScripts_builds_argv (lib : Nat → Nat → List (List Nat) → Int)
    (ctx : Nat) (scripts : List String) (argv : List (List Nat))
    (h : scriptArgv scripts = some argv) :
    argv.length = scripts.length ∧
    (∀ i (hi : i < scripts.length) (hi2 : i < argv.length),
      ∃ pb, encodeAscii (scripts.get ⟨i, hi⟩) = some pb ∧
        argv.get ⟨i, hi2⟩ = asciiBytes "script " ++ pb ++ [0]) ∧
    PyOpenOCD.initScripts lib ctx scripts =
      (if lib ctx argv.length argv = 0 then Except.ok ()
       else Except.error (PyError.openOCDError (lib ctx argv.length argv))) := by
  obtain ⟨h1, h2⟩ := scriptArgv_spec scripts argv h
  refine ⟨h1, h2, ?_⟩
  unfold PyOpenOCD.initScripts
  rw [h]
  by_cases hr : lib ctx argv.length argv = 0
  · simp [hr]
  · simp [hr]

theorem initScripts_builds_argv_witness :
    scriptArgv ["ab"] =
      some [asciiBytes "script " ++ asciiBytes "ab" ++ [0]] ∧
    PyOpenOCD.initScripts (fun _ _ _ => 3) 0 ["ab"] =
      Except.error (PyError.openOCDError 3) := by
  have h : scriptArgv ["ab"] =
      some [asciiBytes "script " ++ asciiBytes "ab" ++ [0]] := by decide
  refine ⟨h, ?_⟩
  have h2 := (initScripts_builds_argv (fun _ _ _ => 3) 0 ["ab"] _ h).2.2
  simpa using h2

/-- C9: every field obtained by creation followed by any sequence of
successful out-value updates keeps byte buffers of exactly byte_length
byte-valued entries, its decoded in-value and out-value are the
little-endian interpretation of those buffers, and a freshly created
field's in-value decodes to 0. -/
theorem scanField_buffer_invariants (b : Int) (ov : Option Nat)
    (vs : List Nat) (f0 f : ScanField) (h0 : mkScanField b ov = some f0)
    (h : applyUpdates f0 vs = some f) :
    f.in_buf.length = f.bytelen ∧ f.out_buf.length = f.bytelen ∧
    (∀ x ∈ f.in_buf, x < 256) ∧ (∀ x ∈ f.out_buf, x < 256) ∧
    f.get_in_value = fromBytesLE f.in_buf ∧
    f.get_out_value = fromBytesLE f.out_buf ∧
    f0.get_in_value = 0 := by
  obtain ⟨hwf0, hin0, -⟩ := mkScanField_wf h0
  obtain ⟨⟨l1, l2, l3, l4⟩, -, -, -⟩ := applyUpdates_wf hwf0 h
  refine ⟨l1, l2, l3, l4, rfl, rfl, ?_⟩
  rw [ScanField.get_in_value, hin0, fromBytesLE_replicate_zero]

theorem scanField_buffer_invariants_witness :
    mkScanField 4 (some 14) = some ⟨4, 1, [0], [14]⟩ ∧
    applyUpdates ⟨4, 1, [0], [14]⟩ [3, 5] = some ⟨4, 1, [0], [5]⟩ ∧
    (([0] : List Nat).length = 1 ∧ ([5] : List Nat).length = 1 ∧
      (∀ x ∈ ([0] : List Nat), x < 256) ∧
      (∀ x ∈ ([5] : List Nat), x < 256) ∧
      ScanField.get_in_value ⟨4, 1, [0], [5]⟩ = fromBytesLE [0] ∧
      ScanField.get_out_value ⟨4, 1, [0], [5]⟩ = fromBytesLE [5] ∧
      ScanField.get_in_value ⟨4, 1, [0], [14]⟩ = 0) := by
  refine ⟨by decide, by decide, ?_⟩
  exact scanField_buffer_invariants 4 (some 14) [3, 5] ⟨4, 1, [0], [14]⟩
    ⟨4, 1, [0], [5]⟩ (by decide) (by decide)

/-- C10: enqueuing a DR scan with zero fields raises nothing (add_drscan
is total) and invokes jtag_add_dr_scan with field count 0 and an empty
descriptor array. -/
theorem add_drscan_empty (tap : Nat) (es : Int) :
    PyOpenOCD.add_drscan tap [] es = LibCall.jtagAddDrScan tap 0 [] es :=
  rfl

end Claims
